import Mathlib

/-!
# Verification of the clone-recorder core (clone-manager, particle-system)

This file gives a shallow embedding, in Lean 4, of the algorithmic core of the
`clone-recorder` repository — the `CloneManager` class of `js/clone-manager.js`
(frame ring buffer, circular clone placement with collision relaxation, the
spawn/active/dismiss animation state machine) and the `ParticleSystem` class of
`js/video_effects/particle-system.js` — together with theorems settling the
frozen claims about that code.

Modelling conventions:

* JavaScript numbers used in the timing / life-cycle logic (milliseconds,
  animation progress, particle life) are modelled as exact rationals `ℚ`;
  geometric quantities that flow through `Math.cos` / `Math.sin` /
  `Math.sqrt` / `Math.atan2` are modelled as real numbers `ℝ`.
* Arrays mutated in place are modelled as Lean lists rebuilt by each
  operation; the in-place `filter` idiom of `updateAnimations` and
  `ParticleSystem.update` becomes `List.filterMap` of a per-element step
  function returning `Option`.
* Canvas snapshots stored in the frame buffer carry no information relevant
  to the claims, so the frame buffer is generic in the element type `α`.
-/

/-! ## Frame ring buffer (clone-manager.js: `addFrame`, `getDelayedFrame`)

These two methods touch only `this.frameBuffer` (a JS array) and
`this.frameBufferSize`, so they are modelled as functions of the buffer list
and the size. -/

/-- Method `addFrame`: push a snapshot, then `if (frameBuffer.length > frameBufferSize)
frameBuffer.shift()`. -/
def addFrame {α : Type} (size : ℕ) (buf : List α) (f : α) : List α :=
  let buf1 := buf ++ [f]
  if size < buf1.length then buf1.tail else buf1

/-- Method `getDelayedFrame(delay)`: `index = Math.max(0, frameBuffer.length - delay);
return frameBuffer[index] || null`.  An out-of-range JS index yields
`undefined`, hence `null`; snapshots are canvases, never falsy, so
`x || null` is the identity on present elements. -/
def getDelayedFrame {α : Type} (buf : List α) (delay : ℤ) : Option α :=
  let index : ℤ := max 0 ((buf.length : ℤ) - delay)
  buf.get? index.toNat

/-- Pushing a whole sequence of frames into an initially empty buffer. -/
def pushFrames {α : Type} (size : ℕ) (fs : List α) : List α :=
  fs.foldl (addFrame size) []

/-! ## Clone data model (clone-manager.js) -/

/-- The three values taken by `clone.animationState`. -/
inductive AnimState where
  | spawning
  | active
  | dismissing
deriving DecidableEq, Repr

/-- Tag of a queued particle burst (`type: 'spawn'` / `type: 'dismiss'`). -/
inductive PType where
  | spawn
  | dismiss
deriving DecidableEq, Repr

/-- One clone record, as pushed by `spawnClones`.  The coordinates are reals
(they come from `Math.cos`/`Math.sin`); the timing fields are rationals. -/
structure Clone where
  id : ℕ
  x : ℝ
  y : ℝ
  delay : ℤ
  opacity : ℚ
  scale : ℚ
  animationState : AnimState
  animationProgress : ℚ
  spawnDelay : ℚ

/-- The fields of the `CloneManager` object that the verified methods read or
write.  The frame buffer itself is handled by the generic functions above. -/
structure CMState where
  clones : List Clone
  maxClones : ℕ
  cloneDelay : ℤ
  isActive : Bool
  useSegmentation : Bool
  frameBufferScale : ℚ
  particlePositions : List ((ℝ × ℝ) × PType)

/-- The `CloneManager` constructor defaults. -/
def initCM : CMState where
  clones := []
  maxClones := 5
  cloneDelay := 10
  isActive := false
  useSegmentation := false
  frameBufferScale := 1
  particlePositions := []

/-! ## Clone placement (clone-manager.js: `calculateCircularPositions`,
`resolveCollisions`)

`Math.random()` draws are supplied by an oracle `rand : ℕ → ℝ` giving the
value of the `i`-th call.  `Math.cos (Math.atan2 dy dx)` and
`Math.sin (Math.atan2 dy dx)` are expressed through `Complex.arg`, whose value
on `dx + dy·I` is exactly `atan2 dy dx` (including `atan2 0 0 = 0`). -/

/-- The value `Math.cos(Math.atan2(dy, dx))`. -/
noncomputable def cosAtan2 (dy dx : ℝ) : ℝ :=
  Real.cos (Complex.arg ⟨dx, dy⟩)

/-- The value `Math.sin(Math.atan2(dy, dx))`. -/
noncomputable def sinAtan2 (dy dx : ℝ) : ℝ :=
  Real.sin (Complex.arg ⟨dx, dy⟩)

/-- The Euclidean distance as computed in `resolveCollisions`:
`Math.sqrt(dx*dx + dy*dy)`. -/
noncomputable def pairDist (p q : ℝ × ℝ) : ℝ :=
  Real.sqrt ((p.1 - q.1) * (p.1 - q.1) + (p.2 - q.2) * (p.2 - q.2))

/-- All pairs of distinct in-range positions are at least `minD` apart — the
separation property asserted by the claim, with the distance as the code
computes it. -/
def Separated (minD : ℝ) (ps : List (ℝ × ℝ)) : Prop :=
  ∀ i j : ℕ, i < ps.length → j < ps.length → i ≠ j →
    minD ≤ pairDist (ps.getD i (0, 0)) (ps.getD j (0, 0))

/-- Body of the doubly nested `for` loop of `resolveCollisions` for one pair
`(i, j)`: if the two points are closer than `minDistance`, push them apart
along their connecting line by half the deficit each and record that a
collision happened. -/
noncomputable def pairStep (minD : ℝ) (st : List (ℝ × ℝ) × Bool)
    (ij : ℕ × ℕ) : List (ℝ × ℝ) × Bool :=
  let ps := st.1
  let p := ps.getD ij.1 (0, 0)
  let q := ps.getD ij.2 (0, 0)
  let dx := p.1 - q.1
  let dy := p.2 - q.2
  let distance := Real.sqrt (dx * dx + dy * dy)
  if distance < minD then
    let pushDistance := (minD - distance) / 2
    let ca := cosAtan2 dy dx
    let sa := sinAtan2 dy dx
    (((ps.set ij.1 (p.1 + ca * pushDistance, p.2 + sa * pushDistance)).set
        ij.2 (q.1 - ca * pushDistance, q.2 - sa * pushDistance)), true)
  else st

/-- The pairs `(i, j)` visited by the nested loops `for i` / `for j = i+1…`,
in visiting order. -/
def pairList (n : ℕ) : List (ℕ × ℕ) :=
  (List.range n).flatMap fun i =>
    ((List.range n).filter fun j => i < j).map fun j => (i, j)

/-- One full pass of the `while` body: fold `pairStep` over every pair,
starting with `hasCollision = false`. -/
noncomputable def collisionPass (minD : ℝ) (ps : List (ℝ × ℝ)) :
    List (ℝ × ℝ) × Bool :=
  (pairList ps.length).foldl (pairStep minD) (ps, false)

/-- The `while (iteration < maxIterations)` loop, by fuel: run a pass; if it
reported a collision, continue with the remaining fuel, otherwise stop (the
pass that reported no collision also made no change). -/
noncomputable def resolveLoop (minD : ℝ) : ℕ → List (ℝ × ℝ) → List (ℝ × ℝ)
  | 0, ps => ps
  | fuel + 1, ps =>
    let r := collisionPass minD ps
    if r.2 then resolveLoop minD fuel r.1 else r.1

/-- Method `resolveCollisions(positions, minDistance = 80)` with its
`maxIterations = 10` cap. -/
noncomputable def resolveCollisions (ps : List (ℝ × ℝ)) (minD : ℝ := 80) :
    List (ℝ × ℝ) :=
  resolveLoop minD 10 ps

/-- Pure iteration of the collision pass, ignoring the early exit; used to
express "the iteration cap was reached". -/
noncomputable def passIter (minD : ℝ) : ℕ → List (ℝ × ℝ) → List (ℝ × ℝ)
  | 0, ps => ps
  | fuel + 1, ps => passIter minD fuel (collisionPass minD ps).1

/-- The circle of candidate positions built by `calculateCircularPositions`
before the separation pass: radius `150` perturbed by `(rand i - 0.5) * 40`,
angle `i * 2π / count`. -/
noncomputable def basePositions (cx cy : ℝ) (count : ℤ) (rand : ℕ → ℝ) :
    List (ℝ × ℝ) :=
  let angleStep : ℝ := 2 * Real.pi / (count : ℝ)
  (List.range count.toNat).map fun (i : ℕ) =>
    let angle := (i : ℝ) * angleStep
    let randomOffset := (rand i - 0.5) * 40
    let adjustedRadius := 150 + randomOffset
    (cx + adjustedRadius * Real.cos angle, cy + adjustedRadius * Real.sin angle)

/-- Method `calculateCircularPositions(centerX, centerY, count)`. -/
noncomputable def calculateCircularPositions (cx cy : ℝ) (count : ℤ)
    (rand : ℕ → ℝ) : List (ℝ × ℝ) :=
  resolveCollisions (basePositions cx cy count rand) 80

/-! ## Spawning, dismissing and the animation state machine -/

/-- The resolution `const cloneCount = count || this.maxClones`: a JS falsy count (omitted,
`null`, or `0`) falls back to `maxClones`. -/
def resolveCount (maxClones : ℕ) : Option ℤ → ℤ
  | none => (maxClones : ℤ)
  | some c => if c = 0 then (maxClones : ℤ) else c

/-- Method `spawnClones(centerX, centerY, count = null)`.  The loop
`for (let i = 0; i < cloneCount; i++)` pushes one clone per index (no
iterations when `cloneCount ≤ 0`). -/
noncomputable def spawnClones (st : CMState) (cx cy : ℝ) (count : Option ℤ)
    (rand : ℕ → ℝ) : CMState :=
  let cloneCount := resolveCount st.maxClones count
  let positions := calculateCircularPositions cx cy cloneCount rand
  let clones : List Clone := (List.range cloneCount.toNat).map fun i =>
    { id := i
      x := (positions.getD i (0, 0)).1
      y := (positions.getD i (0, 0)).2
      delay := st.cloneDelay + (i : ℤ)
      opacity := 1
      scale := 1
      animationState := .spawning
      animationProgress := 0
      spawnDelay := (i : ℚ) * 300 }
  { st with
      clones := clones
      isActive := true
      particlePositions := positions.map fun p => (p, PType.spawn) }

/-- The `forEach((clone, index) => …)` body of `dismissClones`, threading the
running index. -/
def dismissList (i : ℕ) : List Clone → List Clone
  | [] => []
  | c :: rest =>
    { c with
        animationState := .dismissing
        animationProgress := 0
        spawnDelay := (i : ℚ) * 300 } :: dismissList (i + 1) rest

/-- Method `dismissClones()`: mark every clone as dismissing with a fresh stagger,
then store the (already mutated) clones' positions for dismiss particles. -/
def dismissClones (st : CMState) : CMState :=
  let clones := dismissList 0 st.clones
  { st with
      clones := clones
      particlePositions := clones.map fun c => ((c.x, c.y), PType.dismiss) }

/-- The body of the `filter` in `updateAnimations`, for one clone and one
`deltaTime`: `none` means the clone is dropped from the array. -/
def updateCloneStep (dt : ℚ) (c : Clone) : Option Clone :=
  if c.animationState = .spawning ∨ c.animationState = .dismissing then
    if c.spawnDelay > 0 then some { c with spawnDelay := c.spawnDelay - dt }
    else
      let duration : ℚ := if c.animationState = .spawning then 1000 else 800
      let progress := c.animationProgress + dt / duration
      if progress ≥ 1 then
        if c.animationState = .spawning then
          some { c with animationState := .active, animationProgress := 0 }
        else none
      else some { c with animationProgress := progress }
  else some c

/-- Method `updateAnimations(deltaTime)`: filter the clones through the step, then
clear `isActive` if none remain. -/
def updateAnimations (dt : ℚ) (st : CMState) : CMState :=
  let clones := st.clones.filterMap (updateCloneStep dt)
  { st with
      clones := clones
      isActive := if clones.isEmpty then false else st.isActive }

/-- Iterate a partial step function: `none` (an element removed) is
absorbing. -/
def iterOpt {α : Type} (f : α → Option α) : ℕ → α → Option α
  | 0, a => some a
  | n + 1, a =>
    match f a with
    | some b => iterOpt f n b
    | none => none

/-- Iterated ticks of `updateAnimations` at a fixed `deltaTime`. -/
def iterState (dt : ℚ) : ℕ → CMState → CMState
  | 0, st => st
  | n + 1, st => iterState dt n (updateAnimations dt st)

/-! ## Particle system (js/video_effects/particle-system.js) -/

/-- One smoke particle.  `vx`/`vy` come from `Math.cos`/`Math.sin` of a random
angle, so positions and velocities are reals; `life`, `maxLife`, `delay`,
`size` and `opacity` are products of `Math.random()` (rational doubles) and
rational updates.  The constant `color` string is omitted: it never changes
and carries no information. -/
structure Particle where
  x : ℝ
  y : ℝ
  vx : ℝ
  vy : ℝ
  size : ℚ
  opacity : ℚ
  life : ℚ
  maxLife : ℚ
  delay : ℚ
  ptype : PType

/-- The body of the `filter` in `ParticleSystem.update(deltaTime)`
(`const dt = deltaTime / 1000`): `none` means the particle is culled. -/
def stepParticle (dt : ℚ) (p : Particle) : Option Particle :=
  if p.delay > 0 then some { p with delay := p.delay - dt }
  else
    let life1 := p.life - (dt / 1000) / p.maxLife
    let p1 : Particle :=
      { p with
          x := p.x + p.vx
          y := p.y + p.vy
          vx := p.vx * 0.95
          vy := p.vy * 0.95 + (if p.ptype = .spawn then -(0.1 : ℝ) else 0.1)
          life := life1
          opacity := max 0 life1
          size := p.size + 2 }
    if p1.life > 0 then some p1 else none

/-- Method `ParticleSystem.update(deltaTime)` on the particle array. -/
def updateParticles (dt : ℚ) (ps : List Particle) : List Particle :=
  ps.filterMap (stepParticle dt)

/-! ## Concrete states used by witnesses and counterexamples -/

/-- A fully active clone (index 0 of a batch). -/
def exCloneA : Clone :=
  { id := 0, x := 0, y := 0, delay := 10, opacity := 1, scale := 1,
    animationState := .active, animationProgress := 0, spawnDelay := 0 }

/-- A fully active clone (index 1 of a batch). -/
def exCloneB : Clone :=
  { id := 1, x := 0, y := 0, delay := 11, opacity := 1, scale := 1,
    animationState := .active, animationProgress := 0, spawnDelay := 0 }

/-- A manager state holding two active clones. -/
def exStateAB : CMState :=
  { initCM with clones := [exCloneA, exCloneB], isActive := true }

/-- A clone halfway through a dismiss animation (stagger already elapsed). -/
def exCloneD : Clone :=
  { id := 0, x := 0, y := 0, delay := 10, opacity := 1, scale := 1,
    animationState := .dismissing, animationProgress := 1/2, spawnDelay := -5 }

/-- A manager state whose single clone is already dismissing, with no queued
particle bursts. -/
def exStateD : CMState :=
  { initCM with clones := [exCloneD], isActive := true }

/-- A concrete emitted particle: past `life = 1.0`, still inside its
emission delay. -/
def exParticle : Particle :=
  { x := 0, y := 0, vx := 0, vy := 0, size := 50, opacity := 1,
    life := 1, maxLife := 2, delay := 150, ptype := .spawn }

/-! ## Theorems: frame ring buffer (claims C1, C2) -/

theorem tail_append_left {α : Type} (a b : List α) (h : a ≠ []) :
    (a ++ b).tail = a.tail ++ b := by
  cases a with
  | nil => exact absurd rfl h
  | cons x xs => rfl

theorem pushFrames_append_singleton {α : Type} (size : ℕ) (fs : List α)
    (f : α) : pushFrames size (fs ++ [f]) = addFrame size (pushFrames size fs) f := by
  simp [pushFrames, List.foldl_append]

theorem pushFrames_eq_drop {α : Type} (size : ℕ) (fs : List α) :
    pushFrames size fs = fs.drop (fs.length - size) := by
  induction fs using List.reverseRecOn with
  | nil => simp [pushFrames]
  | append_singleton fs f ih =>
    rw [pushFrames_append_singleton, ih]
    unfold addFrame
    by_cases hsz : size ≤ fs.length
    · have hcond : size < ((fs.drop (fs.length - size)) ++ [f]).length := by
        simp [List.length_drop]
        omega
      rw [if_pos hcond]
      rcases Nat.eq_zero_or_pos size with h0 | hpos
      · subst h0
        simp [List.drop_length]
      · have hne : fs.drop (fs.length - size) ≠ [] := by
          intro hnil
          have := congrArg List.length hnil
          simp [List.length_drop] at this
          omega
        rw [tail_append_left _ _ hne, List.tail_drop]
        have hidx : (fs ++ [f]).length - size = (fs.length - size) + 1 := by
          simp
          omega
        rw [hidx, List.drop_append_of_le_length (by omega)]
    · have hcond : ¬ size < ((fs.drop (fs.length - size)) ++ [f]).length := by
        simp [List.length_drop]
        omega
      rw [if_neg hcond]
      have h1 : fs.length - size = 0 := by omega
      have h2 : (fs ++ [f]).length - size = 0 := by
        simp
        omega
      rw [h1, h2, List.drop_zero, List.drop_zero]

/-- C2: for every sequence of `addFrame` calls on a buffer of capacity
`size` starting empty, the buffer holds at most `size` snapshots at all
times (every prefix of the push sequence is covered by the universal
quantifier), the buffer content is always exactly the most recent
`min length size` frames in push order (FIFO), and a push onto a full
buffer evicts precisely the oldest snapshot. -/
theorem frameBuffer_bounded_fifo {α : Type} (size : ℕ) :
    (∀ fs : List α, pushFrames size fs = fs.drop (fs.length - size)) ∧
    (∀ fs : List α, (pushFrames size fs).length ≤ size) ∧
    (∀ (buf : List α) (f : α), 0 < size → buf.length = size →
      addFrame size buf f = buf.tail ++ [f]) := by
  refine ⟨fun fs => pushFrames_eq_drop size fs, fun fs => ?_, fun buf f hpos hfull => ?_⟩
  · rw [pushFrames_eq_drop, List.length_drop]
    omega
  · unfold addFrame
    have hcond : size < (buf ++ [f]).length := by
      simp [hfull]
    rw [if_pos hcond]
    exact tail_append_left _ _ (by
      intro hnil
      have := congrArg List.length hnil
      simp [hfull] at this
      omega)

/-- Witness for `frameBuffer_bounded_fifo` at capacity 2: pushing onto the
full buffer `[1, 2]` evicts the oldest frame `1`. -/
theorem frameBuffer_bounded_fifo_witness :
    0 < 2 ∧ ([1, 2] : List ℕ).length = 2 ∧ addFrame 2 [1, 2] 3 = [2, 3] :=
  ⟨by decide, by decide,
    (@frameBuffer_bounded_fifo ℕ 2).2.2 [1, 2] 3 (by decide) (by decide)⟩

set_option maxRecDepth 4000 in
/-- C1 (code-bug evidence): `getDelayedFrame` indexes the buffer at
`length - delay`, so it is off by one with respect to the documented
"`delay` frames behind the newest" contract.  After pushing frames
`1..35` into a capacity-30 buffer, `getDelayedFrame 0` is `none` (the JS
code reads `frameBuffer[length]`, i.e. `undefined`, and returns `null`)
instead of the newest frame `35`; after pushing `1..31`,
`getDelayedFrame 29` is the 3rd frame pushed (`3`), not the 2nd, while
`getDelayedFrame 30` is the 2nd and `getDelayedFrame 1` is the newest. -/
theorem getDelayedFrame_offByOne_evidence :
    getDelayedFrame (pushFrames 30 ((List.range 35).map (· + 1))) 0 = none ∧
    getDelayedFrame (pushFrames 30 ((List.range 31).map (· + 1))) 29 = some 3 ∧
    getDelayedFrame (pushFrames 30 ((List.range 31).map (· + 1))) 30 = some 2 ∧
    getDelayedFrame (pushFrames 30 ((List.range 31).map (· + 1))) 1 = some 31 := by
  refine ⟨?_, ?_, ?_, ?_⟩ <;> decide

/-! ## Theorems: generic iteration of a partial step -/

theorem iterOpt_succ_some {α : Type} (f : α → Option α) (m : ℕ) (c c' : α)
    (h : f c = some c') : iterOpt f (m + 1) c = iterOpt f m c' := by
  simp [iterOpt, h]

theorem iterOpt_succ_none {α : Type} (f : α → Option α) (m : ℕ) (c : α)
    (h : f c = none) : iterOpt f (m + 1) c = none := by
  simp [iterOpt, h]

theorem iterOpt_add {α : Type} (f : α → Option α) (a b : ℕ) (x : α) :
    iterOpt f (a + b) x = (iterOpt f a x).bind (iterOpt f b) := by
  induction a generalizing x with
  | zero => simp [iterOpt]
  | succ n ih =>
    have hn : n + 1 + b = (n + b) + 1 := by omega
    rw [hn]
    cases h : f x with
    | none => rw [iterOpt_succ_none f _ x h, iterOpt_succ_none f n x h, Option.none_bind]
    | some y =>
      rw [iterOpt_succ_some f _ x y h, iterOpt_succ_some f n x y h, ih]

/-! ## Theorems: branches of `updateCloneStep` -/

theorem updateCloneStep_stagger (dt : ℚ) (c : Clone)
    (hst : c.animationState = .spawning ∨ c.animationState = .dismissing)
    (hsd : 0 < c.spawnDelay) :
    updateCloneStep dt c = some { c with spawnDelay := c.spawnDelay - dt } := by
  unfold updateCloneStep
  rw [if_pos hst, if_pos hsd]

theorem updateCloneStep_spawnProgress (dt : ℚ) (c : Clone)
    (hst : c.animationState = .spawning) (hsd : ¬ 0 < c.spawnDelay)
    (hp : ¬ 1 ≤ c.animationProgress + dt / 1000) :
    updateCloneStep dt c =
      some { c with animationProgress := c.animationProgress + dt / 1000 } := by
  simp only [updateCloneStep, hst]
  simp [hsd, hp]

theorem updateCloneStep_spawnFinish (dt : ℚ) (c : Clone)
    (hst : c.animationState = .spawning) (hsd : ¬ 0 < c.spawnDelay)
    (hp : 1 ≤ c.animationProgress + dt / 1000) :
    updateCloneStep dt c =
      some { c with animationState := .active, animationProgress := 0 } := by
  simp only [updateCloneStep, hst]
  simp [hsd, hp]

theorem updateCloneStep_dismissProgress (dt : ℚ) (c : Clone)
    (hst : c.animationState = .dismissing) (hsd : ¬ 0 < c.spawnDelay)
    (hp : ¬ 1 ≤ c.animationProgress + dt / 800) :
    updateCloneStep dt c =
      some { c with animationProgress := c.animationProgress + dt / 800 } := by
  simp only [updateCloneStep, hst]
  simp [hsd, hp]

theorem updateCloneStep_dismissFinish (dt : ℚ) (c : Clone)
    (hst : c.animationState = .dismissing) (hsd : ¬ 0 < c.spawnDelay)
    (hp : 1 ≤ c.animationProgress + dt / 800) :
    updateCloneStep dt c = none := by
  simp only [updateCloneStep, hst]
  simp [hsd, hp]

theorem updateCloneStep_active (dt : ℚ) (c : Clone)
    (hst : c.animationState = .active) :
    updateCloneStep dt c = some c := by
  simp only [updateCloneStep, hst]
  simp

/-! ## Theorems: phase runs of a single clone -/

theorem cloneStaggerSteps (dt : ℚ) (hdt : 0 < dt) :
    ∀ (j a : ℕ), j ≤ a → ∀ c : Clone,
    (c.animationState = .spawning ∨ c.animationState = .dismissing) →
    c.spawnDelay = (a : ℚ) * dt →
    iterOpt (updateCloneStep dt) j c =
      some { c with spawnDelay := ((a - j : ℕ) : ℚ) * dt } := by
  intro j
  induction j with
  | zero =>
    intro a _ c hst hsd
    simp only [iterOpt, Nat.sub_zero]
    rw [← hsd]
  | succ n ih =>
    intro a hja c hst hsd
    have ha : ∃ a', a = a' + 1 := ⟨a - 1, by omega⟩
    obtain ⟨a', rfl⟩ := ha
    have hpos : 0 < c.spawnDelay := by
      rw [hsd]
      have : (0 : ℚ) < ((a' + 1 : ℕ) : ℚ) := by
        push_cast
        positivity
      exact mul_pos this hdt
    rw [iterOpt_succ_some _ _ _ _ (updateCloneStep_stagger dt c hst hpos)]
    have hstep : ({ c with spawnDelay := c.spawnDelay - dt } : Clone).spawnDelay
        = ((a' : ℕ) : ℚ) * dt := by
      simp [hsd]
      ring
    have := ih a' (by omega) { c with spawnDelay := c.spawnDelay - dt } hst hstep
    rw [this]
    have harith : a' - n = a' + 1 - (n + 1) := by omega
    rw [harith]

theorem cloneStaggerFull (dt : ℚ) (hdt : 0 < dt) (a : ℕ) (c : Clone)
    (hst : c.animationState = .spawning ∨ c.animationState = .dismissing)
    (hsd : c.spawnDelay = (a : ℚ) * dt) :
    iterOpt (updateCloneStep dt) a c = some { c with spawnDelay := 0 } := by
  rw [cloneStaggerSteps dt hdt a a le_rfl c hst hsd]
  congr 1
  congr 1
  simp

theorem cloneActiveRun (dt : ℚ) (m : ℕ) :
    ∀ c : Clone, c.animationState = .active →
    iterOpt (updateCloneStep dt) m c = some c := by
  induction m with
  | zero => intro c _; rfl
  | succ n ih =>
    intro c hst
    rw [iterOpt_succ_some _ _ _ _ (updateCloneStep_active dt c hst), ih c hst]

theorem cloneSpawnRun (dt : ℚ) (hdt : 0 < dt) :
    ∀ (k : ℕ), 1 ≤ k → ∀ c : Clone,
    c.animationState = .spawning → ¬ 0 < c.spawnDelay →
    c.animationProgress = 1 - (k : ℚ) * dt / 1000 →
    iterOpt (updateCloneStep dt) k c =
      some { c with animationState := .active, animationProgress := 0 } := by
  intro k
  induction k with
  | zero => omega
  | succ n ih =>
    intro _ c hst hsd hp
    rcases Nat.eq_zero_or_pos n with h0 | hpos
    · subst h0
      have hfin : 1 ≤ c.animationProgress + dt / 1000 := by
        rw [hp]
        push_cast
        ring_nf
        norm_num
      rw [iterOpt_succ_some _ _ _ _ (updateCloneStep_spawnFinish dt c hst hsd hfin)]
      rfl
    · have hnofin : ¬ 1 ≤ c.animationProgress + dt / 1000 := by
        rw [hp]
        intro hcon
        have h1 : (0 : ℚ) < (n : ℚ) * dt / 1000 := by
          have : (0 : ℚ) < (n : ℚ) := by
            exact_mod_cast hpos
          positivity
        push_cast at hcon
        nlinarith
      rw [iterOpt_succ_some _ _ _ _ (updateCloneStep_spawnProgress dt c hst hsd hnofin)]
      apply ih hpos
      · exact hst
      · exact hsd
      · simp [hp]
        ring

theorem cloneDismissRun (dt : ℚ) (hdt : 0 < dt) :
    ∀ (k : ℕ), 1 ≤ k → ∀ c : Clone,
    c.animationState = .dismissing → ¬ 0 < c.spawnDelay →
    c.animationProgress = 1 - (k : ℚ) * dt / 800 →
    iterOpt (updateCloneStep dt) k c = none := by
  intro k
  induction k with
  | zero => omega
  | succ n ih =>
    intro _ c hst hsd hp
    rcases Nat.eq_zero_or_pos n with h0 | hpos
    · subst h0
      have hfin : 1 ≤ c.animationProgress + dt / 800 := by
        rw [hp]
        push_cast
        ring_nf
        norm_num
      exact iterOpt_succ_none _ _ _ (updateCloneStep_dismissFinish dt c hst hsd hfin)
    · have hnofin : ¬ 1 ≤ c.animationProgress + dt / 800 := by
        rw [hp]
        intro hcon
        have h1 : (0 : ℚ) < (n : ℚ) * dt / 800 := by
          have : (0 : ℚ) < (n : ℚ) := by
            exact_mod_cast hpos
          positivity
        push_cast at hcon
        nlinarith
      rw [iterOpt_succ_some _ _ _ _ (updateCloneStep_dismissProgress dt c hst hsd hnofin)]
      apply ih hpos
      · exact hst
      · exact hsd
      · simp [hp]
        ring

theorem cloneDismissSurvive (dt : ℚ) (hdt : 0 < dt) :
    ∀ (k : ℕ), ∀ (r : ℕ), 1 ≤ r → ∀ c : Clone,
    c.animationState = .dismissing → ¬ 0 < c.spawnDelay →
    c.animationProgress = 1 - ((k + r : ℕ) : ℚ) * dt / 800 →
    iterOpt (updateCloneStep dt) k c =
      some { c with animationProgress := 1 - ((r : ℕ) : ℚ) * dt / 800 } := by
  intro k
  induction k with
  | zero =>
    intro r _ c hst hsd hp
    simp only [Nat.zero_add] at hp
    simp only [iterOpt]
    rw [← hp]
  | succ n ih =>
    intro r hr c hst hsd hp
    have hnofin : ¬ 1 ≤ c.animationProgress + dt / 800 := by
      rw [hp]
      intro hcon
      have h1 : (0 : ℚ) < ((n + r : ℕ) : ℚ) * dt / 800 := by
        have : (0 : ℚ) < ((n + r : ℕ) : ℚ) := by
          exact_mod_cast (by omega : 0 < n + r)
        positivity
      push_cast at hcon h1
      nlinarith
    rw [iterOpt_succ_some _ _ _ _ (updateCloneStep_dismissProgress dt c hst hsd hnofin)]
    apply ih r hr
    · exact hst
    · exact hsd
    · simp [hp]
      ring

theorem cloneNeverRemoved (dt : ℚ) :
    ∀ (n : ℕ) (c : Clone), c.animationState ≠ .dismissing →
    (iterOpt (updateCloneStep dt) n c).isSome := by
  intro n
  induction n with
  | zero => intro c _; rfl
  | succ m ih =>
    intro c hc
    cases hst : c.animationState with
    | dismissing => exact absurd hst hc
    | active =>
      rw [iterOpt_succ_some _ _ _ _ (updateCloneStep_active dt c hst)]
      exact ih c hc
    | spawning =>
      by_cases hsd : 0 < c.spawnDelay
      · rw [iterOpt_succ_some _ _ _ _ (updateCloneStep_stagger dt c (Or.inl hst) hsd)]
        exact ih _ (by simpa using hc)
      · by_cases hp : 1 ≤ c.animationProgress + dt / 1000
        · rw [iterOpt_succ_some _ _ _ _ (updateCloneStep_spawnFinish dt c hst hsd hp)]
          exact ih _ (by simp)
        · rw [iterOpt_succ_some _ _ _ _ (updateCloneStep_spawnProgress dt c hst hsd hp)]
          exact ih _ (by simpa using hc)

/-! ## Theorems: system-level iteration -/

theorem filterMap_iterOpt_zero {α : Type} (f : α → Option α) (l : List α) :
    l.filterMap (iterOpt f 0) = l := by
  induction l with
  | nil => rfl
  | cons x xs ih => simp [List.filterMap_cons, iterOpt, ih]

theorem iterState_clones (dt : ℚ) :
    ∀ (n : ℕ) (st : CMState), (iterState dt n st).clones =
      st.clones.filterMap (iterOpt (updateCloneStep dt) n) := by
  intro n
  induction n with
  | zero =>
    intro st
    rw [filterMap_iterOpt_zero]
    rfl
  | succ m ih =>
    intro st
    show (iterState dt m (updateAnimations dt st)).clones = _
    rw [ih]
    have h1 : (updateAnimations dt st).clones = st.clones.filterMap (updateCloneStep dt) := rfl
    rw [h1, List.filterMap_filterMap]
    congr 1
    funext c
    cases h : updateCloneStep dt c with
    | none => simp [h, iterOpt_succ_none _ m c h]
    | some c' => simp [h, iterOpt_succ_some _ m c c' h]

theorem getElemq_filterMap_of_isSome {α : Type} (f : α → Option α) :
    ∀ (l : List α), (∀ x ∈ l, (f x).isSome) → ∀ i : ℕ,
    (l.filterMap f)[i]? = l[i]?.bind f := by
  intro l
  induction l with
  | nil => intro _ i; simp
  | cons x xs ih =>
    intro h i
    obtain ⟨y, hy⟩ := Option.isSome_iff_exists.mp (h x (by simp))
    rw [List.filterMap_cons_some hy]
    cases i with
    | zero => simp [hy]
    | succ j =>
      simp only [List.getElem?_cons_succ]
      exact ih (fun z hz => h z (by simp [hz])) j

/-! ## Theorems: spawn lifecycle (claim C3) -/

theorem spawnClones_clones_getElem (st : CMState) (cx cy : ℝ) (count : Option ℤ)
    (rand : ℕ → ℝ) (i : ℕ) (hi : i < (resolveCount st.maxClones count).toNat) :
    (spawnClones st cx cy count rand).clones[i]? = some
      { id := i
        x := ((calculateCircularPositions cx cy (resolveCount st.maxClones count)
          rand).getD i (0, 0)).1
        y := ((calculateCircularPositions cx cy (resolveCount st.maxClones count)
          rand).getD i (0, 0)).2
        delay := st.cloneDelay + (i : ℤ)
        opacity := 1
        scale := 1
        animationState := .spawning
        animationProgress := 0
        spawnDelay := (i : ℚ) * 300 } := by
  show ((List.range (resolveCount st.maxClones count).toNat).map _)[i]? = _
  rw [List.getElem?_map, List.getElem?_range hi]
  rfl

theorem spawnClones_clones_spawning (st : CMState) (cx cy : ℝ) (count : Option ℤ)
    (rand : ℕ → ℝ) :
    ∀ c ∈ (spawnClones st cx cy count rand).clones, c.animationState = .spawning := by
  intro c hc
  have hcl : (spawnClones st cx cy count rand).clones =
      (List.range (resolveCount st.maxClones count).toNat).map _ := rfl
  rw [hcl] at hc
  obtain ⟨j, _, rfl⟩ := List.mem_map.mp hc
  rfl

theorem cloneSpawnLifecycle (dt : ℚ) (hdt : 0 < dt) (u i m : ℕ)
    (hu : (100 : ℚ) = (u : ℚ) * dt) (hu1 : 1 ≤ u) (c : Clone)
    (hst : c.animationState = .spawning) (hp : c.animationProgress = 0)
    (hsd : c.spawnDelay = (i : ℚ) * 300) :
    iterOpt (updateCloneStep dt) (3 * i * u + 10 * u + m) c =
      some { c with animationState := .active, animationProgress := 0,
                    spawnDelay := 0 } := by
  rw [Nat.add_assoc, iterOpt_add]
  have h1 : iterOpt (updateCloneStep dt) (3 * i * u) c =
      some { c with spawnDelay := 0 } := by
    apply cloneStaggerFull dt hdt (3 * i * u) c (Or.inl hst)
    rw [hsd]
    push_cast
    linear_combination (3 * (i : ℚ)) * hu
  rw [h1]
  simp only [Option.some_bind]
  rw [iterOpt_add]
  have h2 : iterOpt (updateCloneStep dt) (10 * u) ({ c with spawnDelay := 0 } : Clone) =
      some { c with animationState := .active, animationProgress := 0,
                    spawnDelay := 0 } := by
    apply cloneSpawnRun dt hdt (10 * u) (by omega)
    · exact hst
    · norm_num
    · show c.animationProgress = 1 - ((10 * u : ℕ) : ℚ) * dt / 1000
      rw [hp]
      push_cast
      have h1000 : (10 : ℚ) * (u : ℚ) * dt = 1000 := by
        linear_combination (-10 : ℚ) * hu
      rw [show (10 : ℚ) * (u : ℚ) * dt / 1000 = 1 from by rw [h1000]; norm_num]
      norm_num
  rw [h2]
  simp only [Option.some_bind]
  exact cloneActiveRun dt m _ rfl

/-- C3 (amended): every clone created by `spawnClones` starts in state
`spawning` with `animationProgress = 0` and stagger `spawnDelay = i·300 ms`;
when time is advanced by `updateAnimations` ticks of a fixed
`deltaTime = dt > 0` such that `100 ms` is a whole number `u` of ticks
(so the stagger `i·300` and the spawn duration `1000 ms` are whole numbers
of ticks), then after `3·i·u + 10·u` ticks — total advanced time exactly
`i·300 + 1000 ms`, the stagger plus the spawn duration — the clone is in
state `active` with `animationProgress` reset to `0`, and it stays in that
state on all further ticks (`+ m`).  (As literally stated, with arbitrary
tick sizes, the claim is false: see
`clone_spawn_lifecycle_counterexample`.) -/
theorem clone_spawn_lifecycle (st : CMState) (cx cy : ℝ) (count : Option ℤ)
    (rand : ℕ → ℝ) (i : ℕ) (hi : i < (resolveCount st.maxClones count).toNat)
    (dt : ℚ) (u : ℕ) (hdt : 0 < dt) (hu : (100 : ℚ) = (u : ℚ) * dt) :
    ∃ c : Clone,
      (spawnClones st cx cy count rand).clones[i]? = some c ∧
      c.animationState = .spawning ∧
      c.animationProgress = 0 ∧
      c.spawnDelay = (i : ℚ) * 300 ∧
      ∀ m : ℕ,
        (iterState dt (3 * i * u + 10 * u + m)
            (spawnClones st cx cy count rand)).clones[i]? =
          some { c with animationState := .active, animationProgress := 0,
                        spawnDelay := 0 } := by
  have hu1 : 1 ≤ u := by
    rcases Nat.eq_zero_or_pos u with h0 | h
    · exfalso
      rw [h0] at hu
      push_cast at hu
      simp at hu
    · exact h
  refine ⟨_, spawnClones_clones_getElem st cx cy count rand i hi, rfl, rfl, rfl, ?_⟩
  intro m
  rw [iterState_clones]
  rw [getElemq_filterMap_of_isSome _ _ (fun x hx => cloneNeverRemoved dt _ x (by
    rw [spawnClones_clones_spawning st cx cy count rand x hx]
    simp))]
  rw [spawnClones_clones_getElem st cx cy count rand i hi]
  simp only [Option.some_bind]
  exact cloneSpawnLifecycle dt hdt u i m hu hu1 _ rfl rfl rfl

/-- C3 (counterexample to the claim as stated): the clone with stagger
`S = 300 ms` (index 1 of a 2-clone batch), after a tick sequence whose total
advanced time is exactly `S + 1000 ms` — here a single
`updateAnimations(1300)` tick — is still in state `spawning`, not `active`:
the whole 1300 ms tick is consumed by the stagger countdown. -/
theorem clone_spawn_lifecycle_counterexample :
    ((iterState 1300 1 (spawnClones initCM 0 0 (some 2)
        (fun _ => 0))).clones[1]?).map Clone.animationState =
      some AnimState.spawning := by
  have hi : 1 < (resolveCount initCM.maxClones (some 2)).toNat := by decide
  rw [iterState_clones]
  rw [getElemq_filterMap_of_isSome _ _ (fun x hx => cloneNeverRemoved 1300 _ x (by
    rw [spawnClones_clones_spawning initCM 0 0 (some 2) (fun _ => 0) x hx]
    simp))]
  rw [spawnClones_clones_getElem initCM 0 0 (some 2) (fun _ => 0) 1 hi]
  simp only [Option.some_bind]
  rw [iterOpt_succ_some _ _ _ _ (updateCloneStep_stagger 1300 _ (Or.inl rfl) (by
    show (0 : ℚ) < ((1 : ℕ) : ℚ) * 300
    norm_num))]
  rfl

/-- Witness for `clone_spawn_lifecycle` at a concrete instance: batch of 2
clones spawned on the default manager state, clone index 1 (stagger 300 ms),
fixed `deltaTime = 100 ms` (`u = 1`). -/
theorem clone_spawn_lifecycle_witness :
    1 < (resolveCount initCM.maxClones (some 2)).toNat ∧
    (0 : ℚ) < 100 ∧ (100 : ℚ) = ((1 : ℕ) : ℚ) * 100 ∧
    ∃ c : Clone,
      (spawnClones initCM 0 0 (some 2) (fun _ => 0)).clones[1]? = some c ∧
      c.animationState = .spawning ∧
      c.animationProgress = 0 ∧
      c.spawnDelay = ((1 : ℕ) : ℚ) * 300 ∧
      ∀ m : ℕ,
        (iterState 100 (3 * 1 * 1 + 10 * 1 + m)
            (spawnClones initCM 0 0 (some 2) (fun _ => 0))).clones[1]? =
          some { c with animationState := .active, animationProgress := 0,
                        spawnDelay := 0 } :=
  ⟨by decide, by decide, by simp,
    clone_spawn_lifecycle initCM 0 0 (some 2) (fun _ => 0) 1 (by decide)
      100 1 (by decide) (by simp)⟩

/-! ## Theorems: dismiss lifecycle (claim C4) -/

theorem dismissList_getElem :
    ∀ (cl : List Clone) (k j : ℕ),
    (dismissList k cl)[j]? = cl[j]?.map fun c =>
      { c with animationState := .dismissing, animationProgress := 0,
               spawnDelay := ((k + j : ℕ) : ℚ) * 300 } := by
  intro cl
  induction cl with
  | nil => intro k j; simp [dismissList]
  | cons c rest ih =>
    intro k j
    cases j with
    | zero => simp [dismissList]
    | succ j' =>
      have hd : dismissList k (c :: rest) =
          { c with animationState := .dismissing, animationProgress := 0,
                   spawnDelay := ((k : ℕ) : ℚ) * 300 } :: dismissList (k + 1) rest := rfl
      rw [hd, List.getElem?_cons_succ, List.getElem?_cons_succ, ih (k + 1) j']
      have harith : k + 1 + j' = k + (j' + 1) := by omega
      simp only [harith]

theorem cloneDismissLifecycle (dt : ℚ) (hdt : 0 < dt) (u j : ℕ)
    (hu : (100 : ℚ) = (u : ℚ) * dt) (hu1 : 1 ≤ u) (c : Clone)
    (hst : c.animationState = .dismissing) (hp : c.animationProgress = 0)
    (hsd : c.spawnDelay = (j : ℚ) * 300) :
    (∀ n < 3 * j * u + 8 * u, (iterOpt (updateCloneStep dt) n c).isSome) ∧
    (∀ m : ℕ, iterOpt (updateCloneStep dt) (3 * j * u + 8 * u + m) c = none) := by
  have hsd' : c.spawnDelay = ((3 * j * u : ℕ) : ℚ) * dt := by
    rw [hsd]
    push_cast
    linear_combination (3 * (j : ℚ)) * hu
  have h800 : ((8 * u : ℕ) : ℚ) * dt = 800 := by
    push_cast
    linear_combination (-8 : ℚ) * hu
  constructor
  · intro n hn
    by_cases hstag : n ≤ 3 * j * u
    · rw [cloneStaggerSteps dt hdt n (3 * j * u) hstag c (Or.inr hst) hsd']
      rfl
    · have hk : ∃ k, n = 3 * j * u + k ∧ 1 ≤ k ∧ k < 8 * u := by
        refine ⟨n - 3 * j * u, by omega, by omega, by omega⟩
      obtain ⟨k, rfl, hk1, hk8⟩ := hk
      rw [iterOpt_add]
      rw [cloneStaggerFull dt hdt (3 * j * u) c (Or.inr hst) hsd']
      simp only [Option.some_bind]
      have hsurv := cloneDismissSurvive dt hdt k (8 * u - k) (by omega)
        ({ c with spawnDelay := 0 } : Clone) hst (by norm_num) (by
          show c.animationProgress = 1 - ((k + (8 * u - k) : ℕ) : ℚ) * dt / 800
          rw [hp]
          rw [show k + (8 * u - k) = 8 * u from by omega, h800]
          norm_num)
      rw [hsurv]
      rfl
  · intro m
    rw [iterOpt_add]
    rw [show 3 * j * u + 8 * u = 3 * j * u + 8 * u from rfl]
    rw [iterOpt_add]
    rw [cloneStaggerFull dt hdt (3 * j * u) c (Or.inr hst) hsd']
    simp only [Option.some_bind]
    have hrun := cloneDismissRun dt hdt (8 * u) (by omega)
      ({ c with spawnDelay := 0 } : Clone) hst (by norm_num) (by
        show c.animationProgress = 1 - ((8 * u : ℕ) : ℚ) * dt / 800
        rw [hp, h800]
        norm_num)
    rw [hrun]
    rfl

theorem dismissList_survivors (dt : ℚ) (hdt : 0 < dt) (u : ℕ)
    (hu : (100 : ℚ) = (u : ℚ) * dt) (hu1 : 1 ≤ u) (i : ℕ) :
    ∀ (cl : List Clone) (k : ℕ),
    ((dismissList k cl).filterMap
        (iterOpt (updateCloneStep dt) (3 * i * u + 8 * u))).length =
      cl.length - min cl.length (i + 1 - k) := by
  intro cl
  induction cl with
  | nil => intro k; simp [dismissList]
  | cons c rest ih =>
    intro k
    have hd : dismissList k (c :: rest) =
        { c with animationState := .dismissing, animationProgress := 0,
                 spawnDelay := ((k : ℕ) : ℚ) * 300 } :: dismissList (k + 1) rest := rfl
    rw [hd]
    have hlife := cloneDismissLifecycle dt hdt u k hu hu1
      ({ c with animationState := .dismissing, animationProgress := 0,
                spawnDelay := ((k : ℕ) : ℚ) * 300 } : Clone) rfl rfl rfl
    by_cases hki : k ≤ i
    · have hnone : iterOpt (updateCloneStep dt) (3 * i * u + 8 * u)
          ({ c with animationState := .dismissing, animationProgress := 0,
                    spawnDelay := ((k : ℕ) : ℚ) * 300 } : Clone) = none := by
        have hd2 : i = k + (i - k) := by omega
        have hsplit : 3 * i * u + 8 * u = 3 * k * u + 8 * u + 3 * (i - k) * u := by
          calc 3 * i * u + 8 * u = 3 * (k + (i - k)) * u + 8 * u := by rw [← hd2]
            _ = 3 * k * u + 8 * u + 3 * (i - k) * u := by ring
        rw [hsplit]
        exact hlife.2 (3 * (i - k) * u)
      rw [List.filterMap_cons_none hnone, ih (k + 1)]
      simp only [List.length_cons]
      omega
    · have hsome : (iterOpt (updateCloneStep dt) (3 * i * u + 8 * u)
          ({ c with animationState := .dismissing, animationProgress := 0,
                    spawnDelay := ((k : ℕ) : ℚ) * 300 } : Clone)).isSome := by
        apply hlife.1
        have h3 : (3 * i) * u < (3 * k) * u :=
          mul_lt_mul_of_pos_right (by omega) (by omega)
        omega
      obtain ⟨y, hy⟩ := Option.isSome_iff_exists.mp hsome
      rw [List.filterMap_cons_some hy, List.length_cons, ih (k + 1)]
      simp only [List.length_cons]
      omega

/-- C4 (amended): `dismissClones` sets every clone — whatever its previous
state — to `dismissing` with `animationProgress` reset to 0 and a fresh
stagger of `index · 300 ms`; thereafter, when time is advanced by
`updateAnimations` ticks of a fixed `deltaTime = dt > 0` such that `100 ms`
is a whole number `u` of ticks, then at the moment clone `i`'s stagger plus
the 800 ms dismiss duration has elapsed — after `3·i·u + 8·u` ticks, i.e.
total advanced time exactly `i·300 + 800 ms` — exactly clones `0..i` have
been removed: the clone count is the original count minus `(i + 1)`, a
decrease of exactly one per such clone.  (As literally stated, with
arbitrary tick sizes, the removal-time part of the claim is false: see
`dismiss_lifecycle_counterexample`.) -/
theorem dismiss_lifecycle (st : CMState) (dt : ℚ) (u : ℕ)
    (hdt : 0 < dt) (hu : (100 : ℚ) = (u : ℚ) * dt) :
    (∀ (j : ℕ) (c : Clone), st.clones[j]? = some c →
      (dismissClones st).clones[j]? =
        some { c with animationState := .dismissing, animationProgress := 0,
                      spawnDelay := (j : ℚ) * 300 }) ∧
    (∀ i : ℕ, i < st.clones.length →
      (iterState dt (3 * i * u + 8 * u) (dismissClones st)).clones.length =
        st.clones.length - (i + 1)) := by
  have hu1 : 1 ≤ u := by
    rcases Nat.eq_zero_or_pos u with h0 | h
    · exfalso
      rw [h0] at hu
      push_cast at hu
      simp at hu
    · exact h
  have hdc : (dismissClones st).clones = dismissList 0 st.clones := rfl
  constructor
  · intro j c hj
    rw [hdc, dismissList_getElem st.clones 0 j, hj]
    simp
  · intro i hi
    rw [iterState_clones, hdc, dismissList_survivors dt hdt u hu hu1 i st.clones 0]
    omega

/-- C4 (counterexample to the claim as stated): dismiss two active clones;
clone 1 gets stagger 300 ms.  A single `updateAnimations(1100)` tick advances
total time 1100 ms = clone 1's stagger + the 800 ms dismiss duration, yet
clone 1 is still present (the whole tick went into its stagger countdown):
the count is 1, not 0 (clone 0, with stagger 0, was removed). -/
theorem dismiss_lifecycle_counterexample :
    (iterState 1100 1 (dismissClones exStateAB)).clones.length = 1 := by
  have hdc : (dismissClones exStateAB).clones =
      [{ exCloneA with animationState := .dismissing, animationProgress := 0,
                       spawnDelay := ((0 : ℕ) : ℚ) * 300 },
       { exCloneB with animationState := .dismissing, animationProgress := 0,
                       spawnDelay := ((1 : ℕ) : ℚ) * 300 }] := rfl
  rw [iterState_clones, hdc]
  have hnone : iterOpt (updateCloneStep 1100) 1
      ({ exCloneA with animationState := .dismissing, animationProgress := 0,
                       spawnDelay := ((0 : ℕ) : ℚ) * 300 } : Clone) = none := by
    apply iterOpt_succ_none
    apply updateCloneStep_dismissFinish
    · rfl
    · show ¬ (0 : ℚ) < ((0 : ℕ) : ℚ) * 300
      norm_num
    · show (1 : ℚ) ≤ 0 + 1100 / 800
      norm_num
  have hsome : iterOpt (updateCloneStep 1100) 1
      ({ exCloneB with animationState := .dismissing, animationProgress := 0,
                       spawnDelay := ((1 : ℕ) : ℚ) * 300 } : Clone) =
      some { exCloneB with animationState := .dismissing, animationProgress := 0,
                           spawnDelay := ((1 : ℕ) : ℚ) * 300 - 1100 } := by
    rw [iterOpt_succ_some _ _ _ _ (updateCloneStep_stagger 1100 _ (Or.inr rfl) (by
      show (0 : ℚ) < ((1 : ℕ) : ℚ) * 300
      norm_num))]
    rfl
  rw [List.filterMap_cons_none hnone, List.filterMap_cons_some hsome]
  rfl

/-- Witness for `dismiss_lifecycle`: two active clones dismissed on a concrete
state, fixed `deltaTime = 100 ms` (`u = 1`); at `3·1·1 + 8·1 = 11` ticks
(1100 ms, clone 1's stagger + 800 ms) the count has dropped from 2 to 0. -/
theorem dismiss_lifecycle_witness :
    (0 : ℚ) < 100 ∧ (100 : ℚ) = ((1 : ℕ) : ℚ) * 100 ∧
    1 < exStateAB.clones.length ∧
    (iterState 100 (3 * 1 * 1 + 8 * 1) (dismissClones exStateAB)).clones.length =
      exStateAB.clones.length - (1 + 1) :=
  ⟨by decide, by simp, by decide,
    (dismiss_lifecycle exStateAB 100 1 (by decide) (by simp)).2 1 (by decide)⟩

/-! ## Theorems: dismiss edge cases (claim C6) -/

theorem dismissList_length : ∀ (cl : List Clone) (k : ℕ),
    (dismissList k cl).length = cl.length := by
  intro cl
  induction cl with
  | nil => intro k; rfl
  | cons c rest ih =>
    intro k
    show (dismissList (k + 1) rest).length + 1 = rest.length + 1
    rw [ih (k + 1)]

/-- C6 (amended): `dismissClones` on an empty collection is a no-op up to
clearing the queued particle list — the collection stays empty, nothing is
thrown (the function is total), and no particle bursts are queued.  On a
non-empty collection, however, it is not a no-op even when every clone is
already dismissing: each clone's dismiss animation is restarted
(`animationProgress` reset to 0, stagger reset to `index · 300 ms`) and one
dismiss particle burst is queued per clone.  (The already-dismissing half of
the claim as stated is refuted by `dismissClones_edge_counterexample`.) -/
theorem dismissClones_edge (st : CMState) :
    (st.clones = [] → dismissClones st = { st with particlePositions := [] }) ∧
    (∀ (j : ℕ) (c : Clone), st.clones[j]? = some c →
      (dismissClones st).clones[j]? =
        some { c with animationState := .dismissing, animationProgress := 0,
                      spawnDelay := (j : ℚ) * 300 }) ∧
    (dismissClones st).particlePositions.length = st.clones.length := by
  have hdc : (dismissClones st).clones = dismissList 0 st.clones := rfl
  refine ⟨fun hnil => ?_, fun j c hj => ?_, ?_⟩
  · have h0 : dismissClones st = { st with
        clones := dismissList 0 st.clones,
        particlePositions := (dismissList 0 st.clones).map
          fun c => ((c.x, c.y), PType.dismiss) } := rfl
    rw [h0, hnil]
    rfl
  · rw [hdc, dismissList_getElem st.clones 0 j, hj]
    simp
  · show ((dismissList 0 st.clones).map _).length = _
    rw [List.length_map, dismissList_length]

/-- C6 (counterexample to the claim as stated): on a collection whose single
clone is already dismissing halfway (`animationProgress = 1/2`, stagger
elapsed) with no queued particle bursts, `dismissClones` restarts the dismiss
animation (`animationProgress` becomes 0, was 1/2) and queues one dismiss
particle burst (the queue goes from empty to length 1). -/
theorem dismissClones_edge_counterexample :
    ((dismissClones exStateD).clones[0]?).map Clone.animationProgress = some 0 ∧
    exCloneD.animationProgress = 1/2 ∧
    (dismissClones exStateD).particlePositions.length = 1 ∧
    exStateD.particlePositions.length = 0 :=
  ⟨rfl, rfl, rfl, rfl⟩

/-- Witness for `dismissClones_edge`: on the default (empty) manager state,
dismissing is a no-op and queues no particles. -/
theorem dismissClones_edge_witness :
    dismissClones initCM = { initCM with particlePositions := [] } ∧
    (dismissClones initCM).particlePositions.length = initCM.clones.length :=
  ⟨(dismissClones_edge initCM).1 rfl, (dismissClones_edge initCM).2.2⟩

/-! ## Theorems: spawn count resolution (claims C5, C10, C8) -/

theorem spawnClones_length (st : CMState) (cx cy : ℝ) (count : Option ℤ)
    (rand : ℕ → ℝ) :
    (spawnClones st cx cy count rand).clones.length =
      (resolveCount st.maxClones count).toNat := by
  show ((List.range _).map _).length = _
  rw [List.length_map, List.length_range]

/-- C5 (amended): `spawnClones` does not clamp the requested count to the
configured maximum: for a non-zero requested count `c` it creates exactly
`max c 0` clones — i.e. exactly `c` clones even when `c > maxClones`, and no
clones at all (a no-op rather than a failure) when `c` is negative — while a
count of 0 falls back to `maxClones` clones. -/
theorem spawnClones_count_clamp (st : CMState) (cx cy : ℝ) (rand : ℕ → ℝ)
    (c : ℤ) :
    ((spawnClones st cx cy (some c) rand).clones.length : ℤ) =
      if c = 0 then (st.maxClones : ℤ) else max c 0 := by
  rw [spawnClones_length]
  simp only [resolveCount]
  by_cases h : c = 0
  · simp [h]
  · rw [if_neg h, if_neg h]
    exact Int.toNat_eq_max c

/-- C5 (counterexample to the claim as stated): requesting 6 clones on a
manager whose configured maximum is 5 creates 6 clones — the request is not
clamped to `maxClones`. -/
theorem spawnClones_count_clamp_counterexample :
    (spawnClones initCM 0 0 (some 6) (fun _ => 0)).clones.length = 6 ∧
    initCM.maxClones = 5 := by
  constructor
  · rw [spawnClones_length]
    decide
  · rfl

/-- C10: calling `spawnClones` with the count omitted (`null`) or equal to 0 —
any JS-falsy count — spawns exactly `maxClones` clones and sets `isActive`
to `true`. -/
theorem spawnClones_falsy_count (st : CMState) (cx cy : ℝ) (rand : ℕ → ℝ) :
    (spawnClones st cx cy none rand).clones.length = st.maxClones ∧
    (spawnClones st cx cy (some 0) rand).clones.length = st.maxClones ∧
    (spawnClones st cx cy none rand).isActive = true ∧
    (spawnClones st cx cy (some 0) rand).isActive = true := by
  refine ⟨?_, ?_, rfl, rfl⟩
  · rw [spawnClones_length]
    simp [resolveCount]
  · rw [spawnClones_length]
    simp [resolveCount]

/-- C8: `spawnClones(cx, cy, count)` with `count ≥ 1` replaces whatever batch
the (arbitrary) previous state held with exactly `count` new clones; the
`i`-th clone starts with `animationState = spawning`, `animationProgress = 0`,
stagger `spawnDelay = i · 300 ms` and `delay = cloneDelay + i`, so the delay
offsets within the batch are pairwise distinct. -/
theorem spawnClones_batch (st : CMState) (cx cy : ℝ) (rand : ℕ → ℝ)
    (count : ℤ) (hc : 1 ≤ count) :
    ((spawnClones st cx cy (some count) rand).clones.length : ℤ) = count ∧
    (∀ i : ℕ, (i : ℤ) < count →
      ∃ c : Clone,
        (spawnClones st cx cy (some count) rand).clones[i]? = some c ∧
        c.animationState = .spawning ∧ c.animationProgress = 0 ∧
        c.spawnDelay = (i : ℚ) * 300 ∧ c.delay = st.cloneDelay + (i : ℤ)) ∧
    (∀ (i j : ℕ) (ci cj : Clone),
      (spawnClones st cx cy (some count) rand).clones[i]? = some ci →
      (spawnClones st cx cy (some count) rand).clones[j]? = some cj →
      i ≠ j → ci.delay ≠ cj.delay) := by
  have hres : resolveCount st.maxClones (some count) = count := by
    simp only [resolveCount]
    rw [if_neg (by omega)]
  refine ⟨?_, fun i hi => ?_, fun i j ci cj hci hcj hij => ?_⟩
  · rw [spawnClones_length, hres]
    omega
  · have hi' : i < (resolveCount st.maxClones (some count)).toNat := by
      rw [hres]
      omega
    exact ⟨_, spawnClones_clones_getElem st cx cy (some count) rand i hi',
      rfl, rfl, rfl, rfl⟩
  · have hlen := spawnClones_length st cx cy (some count) rand
    have hilen : i < (resolveCount st.maxClones (some count)).toNat := by
      obtain ⟨h1, -⟩ := List.getElem?_eq_some_iff.mp hci
      rwa [hlen] at h1
    have hjlen : j < (resolveCount st.maxClones (some count)).toNat := by
      obtain ⟨h1, -⟩ := List.getElem?_eq_some_iff.mp hcj
      rwa [hlen] at h1
    rw [spawnClones_clones_getElem st cx cy (some count) rand i hilen] at hci
    rw [spawnClones_clones_getElem st cx cy (some count) rand j hjlen] at hcj
    have hci' := Option.some.inj hci
    have hcj' := Option.some.inj hcj
    rw [← hci', ← hcj']
    show st.cloneDelay + (i : ℤ) ≠ st.cloneDelay + (j : ℤ)
    omega

/-- Witness for `spawnClones_batch`: a batch of 3 clones spawned on the
default manager state. -/
theorem spawnClones_batch_witness :
    (1 : ℤ) ≤ 3 ∧
    ((spawnClones initCM 0 0 (some 3) (fun _ => 0)).clones.length : ℤ) = 3 ∧
    (∀ i : ℕ, (i : ℤ) < 3 →
      ∃ c : Clone,
        (spawnClones initCM 0 0 (some 3) (fun _ => 0)).clones[i]? = some c ∧
        c.animationState = .spawning ∧ c.animationProgress = 0 ∧
        c.spawnDelay = (i : ℚ) * 300 ∧ c.delay = initCM.cloneDelay + (i : ℤ)) ∧
    (∀ (i j : ℕ) (ci cj : Clone),
      (spawnClones initCM 0 0 (some 3) (fun _ => 0)).clones[i]? = some ci →
      (spawnClones initCM 0 0 (some 3) (fun _ => 0)).clones[j]? = some cj →
      i ≠ j → ci.delay ≠ cj.delay) :=
  ⟨by decide,
    (spawnClones_batch initCM 0 0 (fun _ => 0) 3 (by decide)).1,
    (spawnClones_batch initCM 0 0 (fun _ => 0) 3 (by decide)).2.1,
    (spawnClones_batch initCM 0 0 (fun _ => 0) 3 (by decide)).2.2⟩

/-! ## Theorems: particle system (claim C9) -/

theorem stepParticle_delay (dt : ℚ) (p : Particle) (h : 0 < p.delay) :
    stepParticle dt p = some { p with delay := p.delay - dt } := by
  unfold stepParticle
  rw [if_pos h]

theorem stepParticle_live (dt : ℚ) (p : Particle) (hd : ¬ 0 < p.delay)
    (hl : 0 < p.life - dt / 1000 / p.maxLife) :
    stepParticle dt p = some
      { p with
          x := p.x + p.vx
          y := p.y + p.vy
          vx := p.vx * 0.95
          vy := p.vy * 0.95 + (if p.ptype = .spawn then -(0.1 : ℝ) else 0.1)
          life := p.life - dt / 1000 / p.maxLife
          opacity := max 0 (p.life - dt / 1000 / p.maxLife)
          size := p.size + 2 } := by
  simp [stepParticle, hd, hl]

theorem stepParticle_dead (dt : ℚ) (p : Particle) (hd : ¬ 0 < p.delay)
    (hl : ¬ 0 < p.life - dt / 1000 / p.maxLife) :
    stepParticle dt p = none := by
  simp [stepParticle, hd, hl]

theorem particleDelayRun (dt : ℚ) (hdt : 0 < dt) :
    ∀ (j : ℕ) (p : Particle), j ≤ ⌈p.delay / dt⌉₊ →
    iterOpt (stepParticle dt) j p =
      some { p with delay := p.delay - (j : ℚ) * dt } := by
  intro j
  induction j with
  | zero =>
    intro p _
    simp only [iterOpt]
    have h0 : p.delay - ((0 : ℕ) : ℚ) * dt = p.delay := by
      push_cast
      ring
    rw [h0]
  | succ n ih =>
    intro p hj
    have hdpos : 0 < p.delay := by
      have h1 : 0 < ⌈p.delay / dt⌉₊ := by omega
      have h2 : 0 < p.delay / dt := Nat.ceil_pos.mp h1
      have h3 := mul_pos h2 hdt
      rwa [div_mul_cancel₀ _ (ne_of_gt hdt)] at h3
    rw [iterOpt_succ_some _ _ _ _ (stepParticle_delay dt p hdpos)]
    have hle : n ≤ ⌈(p.delay - dt) / dt⌉₊ := by
      rcases Nat.eq_zero_or_pos n with h0 | hn
      · omega
      · have h1 : ((n : ℕ) : ℚ) < p.delay / dt := Nat.lt_ceil.mp (by omega)
        have h2 : ((n - 1 : ℕ) : ℚ) < (p.delay - dt) / dt := by
          rw [Nat.cast_sub hn, sub_div, div_self (ne_of_gt hdt)]
          push_cast
          linarith
        have h3 : (n - 1 : ℕ) < ⌈(p.delay - dt) / dt⌉₊ := Nat.lt_ceil.mpr h2
        omega
    have hres := ih { p with delay := p.delay - dt } hle
    rw [hres]
    have harith : p.delay - dt - (n : ℚ) * dt = p.delay - ((n + 1 : ℕ) : ℚ) * dt := by
      push_cast
      ring
    rw [harith]

theorem particleLifeRun (dt : ℚ) :
    ∀ (m : ℕ), 1 ≤ m → ∀ p : Particle, ¬ 0 < p.delay → 0 < p.maxLife →
    p.life ≤ (m : ℚ) * (dt / 1000 / p.maxLife) →
    iterOpt (stepParticle dt) m p = none := by
  intro m
  induction m with
  | zero => omega
  | succ n ih =>
    intro _ p hd hml hlife
    by_cases hl : 0 < p.life - dt / 1000 / p.maxLife
    · have hn : 1 ≤ n := by
        by_contra hn0
        have h0 : n = 0 := by omega
        subst h0
        push_cast at hlife
        linarith
      rw [iterOpt_succ_some _ _ _ _ (stepParticle_live dt p hd hl)]
      apply ih hn
      · exact hd
      · exact hml
      · show p.life - dt / 1000 / p.maxLife ≤ (n : ℚ) * (dt / 1000 / p.maxLife)
        push_cast at hlife
        linarith
    · exact iterOpt_succ_none _ _ _ (stepParticle_dead dt p hd hl)

/-- C9: for a fixed `deltaTime = dt > 0` and any particle with positive
`maxLife` and `life ≤ 1` (as emitted, `life` starts at `1.0`): every particle
surviving `ParticleSystem.update` is the successor of a particle of the
previous population; one update step never increases a particle's life
(monotone non-increase across successive updates); a surviving particle past
its delay has `life > 0` (a particle whose life reaches `≤ 0` is removed);
and the particle is removed no later than `⌈delay/dt⌉` ticks (its emission
delay) plus `⌈maxLife·1000/dt⌉ = ⌈maxLife·1000/deltaTime⌉` further ticks. -/
theorem particle_lifecycle (dt : ℚ) (hdt : 0 < dt) (p : Particle)
    (hml : 0 < p.maxLife) (hlife : p.life ≤ 1) (ps : List Particle) :
    (∀ q ∈ updateParticles dt ps, ∃ q0 ∈ ps, stepParticle dt q0 = some q) ∧
    (∀ p' : Particle, stepParticle dt p = some p' → p'.life ≤ p.life) ∧
    (∀ p' : Particle, stepParticle dt p = some p' → 0 < p.delay ∨ 0 < p'.life) ∧
    iterOpt (stepParticle dt) (⌈p.delay / dt⌉₊ + ⌈p.maxLife * 1000 / dt⌉₊) p =
      none := by
  refine ⟨fun q hq => List.mem_filterMap.mp hq, fun p' hp' => ?_,
    fun p' hp' => ?_, ?_⟩
  · by_cases hd : 0 < p.delay
    · rw [stepParticle_delay dt p hd] at hp'
      have h := Option.some.inj hp'
      rw [← h]
    · by_cases hl : 0 < p.life - dt / 1000 / p.maxLife
      · rw [stepParticle_live dt p hd hl] at hp'
        have h := Option.some.inj hp'
        rw [← h]
        show p.life - dt / 1000 / p.maxLife ≤ p.life
        have hq : 0 < dt / 1000 / p.maxLife := by positivity
        linarith
      · rw [stepParticle_dead dt p hd hl] at hp'
        exact absurd hp' (by simp)
  · by_cases hd : 0 < p.delay
    · exact Or.inl hd
    · by_cases hl : 0 < p.life - dt / 1000 / p.maxLife
      · rw [stepParticle_live dt p hd hl] at hp'
        have h := Option.some.inj hp'
        rw [← h]
        exact Or.inr hl
      · rw [stepParticle_dead dt p hd hl] at hp'
        exact absurd hp' (by simp)
  · rw [iterOpt_add, particleDelayRun dt hdt (⌈p.delay / dt⌉₊) p le_rfl]
    simp only [Option.some_bind]
    have hM : 0 < ⌈p.maxLife * 1000 / dt⌉₊ := Nat.ceil_pos.mpr (by positivity)
    apply particleLifeRun dt _ (by omega)
    · show ¬ 0 < p.delay - (⌈p.delay / dt⌉₊ : ℚ) * dt
      have h1 : p.delay / dt ≤ (⌈p.delay / dt⌉₊ : ℚ) := Nat.le_ceil _
      rw [div_le_iff₀ hdt] at h1
      simp only [not_lt]
      linarith
    · exact hml
    · show p.life ≤ (⌈p.maxLife * 1000 / dt⌉₊ : ℚ) * (dt / 1000 / p.maxLife)
      have h1 : p.maxLife * 1000 / dt ≤ (⌈p.maxLife * 1000 / dt⌉₊ : ℚ) :=
        Nat.le_ceil _
      have hq : 0 < dt / 1000 / p.maxLife := by positivity
      have h2 : (p.maxLife * 1000 / dt) * (dt / 1000 / p.maxLife) = 1 := by
        field_simp
        ring
      have h3 := mul_le_mul_of_nonneg_right h1 (le_of_lt hq)
      rw [h2] at h3
      linarith

/-- Witness for `particle_lifecycle`: a concrete particle with
`delay = 150 ms`, `life = 1`, `maxLife = 2 s` under fixed
`deltaTime = 100 ms`, in an empty population. -/
theorem particle_lifecycle_witness :
    (0 : ℚ) < 100 ∧ 0 < exParticle.maxLife ∧ exParticle.life ≤ 1 ∧
    (∀ q ∈ updateParticles 100 [], ∃ q0 ∈ ([] : List Particle),
      stepParticle 100 q0 = some q) ∧
    (∀ p' : Particle, stepParticle 100 exParticle = some p' →
      p'.life ≤ exParticle.life) ∧
    (∀ p' : Particle, stepParticle 100 exParticle = some p' →
      0 < exParticle.delay ∨ 0 < p'.life) ∧
    iterOpt (stepParticle 100)
      (⌈exParticle.delay / 100⌉₊ + ⌈exParticle.maxLife * 1000 / 100⌉₊)
      exParticle = none := by
  have h := particle_lifecycle 100 (by decide) exParticle (by decide)
    (by decide) []
  exact ⟨by decide, by decide, by decide, h.1, h.2.1, h.2.2.1, h.2.2.2⟩

/-! ## Theorems: clone placement (claim C7) -/

theorem pairDist_comm (p q : ℝ × ℝ) : pairDist p q = pairDist q p := by
  unfold pairDist
  congr 1
  ring

theorem pairStep_length (minD : ℝ) (st : List (ℝ × ℝ) × Bool) (ij : ℕ × ℕ) :
    (pairStep minD st ij).1.length = st.1.length := by
  unfold pairStep
  dsimp only
  split
  · simp
  · rfl

theorem pairStep_true (minD : ℝ) (st : List (ℝ × ℝ) × Bool) (ij : ℕ × ℕ)
    (h : st.2 = true) : (pairStep minD st ij).2 = true := by
  unfold pairStep
  dsimp only
  split
  · rfl
  · exact h

theorem foldl_pairStep_length (minD : ℝ) :
    ∀ (L : List (ℕ × ℕ)) (st : List (ℝ × ℝ) × Bool),
    (L.foldl (pairStep minD) st).1.length = st.1.length := by
  intro L
  induction L with
  | nil => intro st; rfl
  | cons ij L' ih =>
    intro st
    rw [List.foldl_cons, ih (pairStep minD st ij), pairStep_length]

theorem foldl_pairStep_true (minD : ℝ) :
    ∀ (L : List (ℕ × ℕ)) (st : List (ℝ × ℝ) × Bool), st.2 = true →
    (L.foldl (pairStep minD) st).2 = true := by
  intro L
  induction L with
  | nil => intro st h; exact h
  | cons ij L' ih =>
    intro st h
    rw [List.foldl_cons]
    exact ih (pairStep minD st ij) (pairStep_true minD st ij h)

theorem foldl_pairStep_false (minD : ℝ) :
    ∀ (L : List (ℕ × ℕ)) (st : List (ℝ × ℝ) × Bool),
    (L.foldl (pairStep minD) st).2 = false →
    L.foldl (pairStep minD) st = st ∧
    ∀ ij ∈ L,
      ¬ pairDist (st.1.getD ij.1 (0, 0)) (st.1.getD ij.2 (0, 0)) < minD := by
  intro L
  induction L with
  | nil => intro st _; exact ⟨rfl, by simp⟩
  | cons ij L' ih =>
    intro st hfalse
    rw [List.foldl_cons] at hfalse
    have hnc : ¬ pairDist (st.1.getD ij.1 (0, 0)) (st.1.getD ij.2 (0, 0)) < minD := by
      intro hc
      have h2 : (pairStep minD st ij).2 = true := by
        unfold pairStep
        rw [if_pos (show Real.sqrt
          (((st.1.getD ij.1 (0, 0)).1 - (st.1.getD ij.2 (0, 0)).1) *
            ((st.1.getD ij.1 (0, 0)).1 - (st.1.getD ij.2 (0, 0)).1) +
           ((st.1.getD ij.1 (0, 0)).2 - (st.1.getD ij.2 (0, 0)).2) *
            ((st.1.getD ij.1 (0, 0)).2 - (st.1.getD ij.2 (0, 0)).2)) < minD
          from hc)]
      have h3 := foldl_pairStep_true minD L' (pairStep minD st ij) h2
      rw [h3] at hfalse
      simp at hfalse
    have hstep : pairStep minD st ij = st := by
      unfold pairStep
      rw [if_neg (show ¬ Real.sqrt
        (((st.1.getD ij.1 (0, 0)).1 - (st.1.getD ij.2 (0, 0)).1) *
          ((st.1.getD ij.1 (0, 0)).1 - (st.1.getD ij.2 (0, 0)).1) +
         ((st.1.getD ij.1 (0, 0)).2 - (st.1.getD ij.2 (0, 0)).2) *
          ((st.1.getD ij.1 (0, 0)).2 - (st.1.getD ij.2 (0, 0)).2)) < minD
        from hnc)]
    rw [hstep] at hfalse
    rw [List.foldl_cons, hstep]
    obtain ⟨h1, h2⟩ := ih st hfalse
    refine ⟨h1, fun kl hkl => ?_⟩
    rcases List.mem_cons.mp hkl with h | h
    · subst h
      exact hnc
    · exact h2 kl h

theorem pairList_mem (n i j : ℕ) (hij : i < j) (hj : j < n) :
    (i, j) ∈ pairList n := by
  unfold pairList
  rw [List.mem_flatMap]
  refine ⟨i, List.mem_range.mpr (lt_trans hij hj), ?_⟩
  rw [List.mem_map]
  refine ⟨j, ?_, rfl⟩
  rw [List.mem_filter]
  exact ⟨List.mem_range.mpr hj, by simpa using hij⟩

theorem collisionPass_false (minD : ℝ) (ps : List (ℝ × ℝ))
    (h : (collisionPass minD ps).2 = false) :
    (collisionPass minD ps).1 = ps ∧ Separated minD ps := by
  obtain ⟨h1, h2⟩ := foldl_pairStep_false minD (pairList ps.length) (ps, false) h
  have hcp : collisionPass minD ps =
      (pairList ps.length).foldl (pairStep minD) (ps, false) := rfl
  refine ⟨by rw [hcp, h1], fun i j hi hj hij => ?_⟩
  rcases Nat.lt_or_ge i j with hlt | hge
  · exact le_of_not_lt (h2 (i, j) (pairList_mem ps.length i j hlt hj))
  · have hlt : j < i := by omega
    rw [pairDist_comm]
    exact le_of_not_lt (h2 (j, i) (pairList_mem ps.length j i hlt hi))

theorem collisionPass_length (minD : ℝ) (ps : List (ℝ × ℝ)) :
    (collisionPass minD ps).1.length = ps.length :=
  foldl_pairStep_length minD (pairList ps.length) (ps, false)

theorem resolveLoop_length (minD : ℝ) :
    ∀ (fuel : ℕ) (ps : List (ℝ × ℝ)),
    (resolveLoop minD fuel ps).length = ps.length := by
  intro fuel
  induction fuel with
  | zero => intro ps; rfl
  | succ n ih =>
    intro ps
    show (if (collisionPass minD ps).2 then resolveLoop minD n (collisionPass minD ps).1
      else (collisionPass minD ps).1).length = ps.length
    split
    · rw [ih, collisionPass_length]
    · rw [collisionPass_length]

theorem resolveLoop_spec (minD : ℝ) :
    ∀ (fuel : ℕ) (ps : List (ℝ × ℝ)),
    Separated minD (resolveLoop minD fuel ps) ∨
      resolveLoop minD fuel ps = passIter minD fuel ps := by
  intro fuel
  induction fuel with
  | zero => intro ps; exact Or.inr rfl
  | succ n ih =>
    intro ps
    show Separated minD (if (collisionPass minD ps).2 then
        resolveLoop minD n (collisionPass minD ps).1
      else (collisionPass minD ps).1) ∨
      (if (collisionPass minD ps).2 then resolveLoop minD n (collisionPass minD ps).1
        else (collisionPass minD ps).1) = passIter minD n (collisionPass minD ps).1
    cases hb : (collisionPass minD ps).2 with
    | false =>
      obtain ⟨h1, h2⟩ := collisionPass_false minD ps hb
      simp only [hb, if_neg Bool.false_ne_true, Bool.false_eq_true, if_false]
      rw [h1]
      exact Or.inl h2
    | true =>
      simp only [hb, if_true]
      exact ih (collisionPass minD ps).1

theorem basePositions_length (cx cy : ℝ) (count : ℤ) (rand : ℕ → ℝ) :
    (basePositions cx cy count rand).length = count.toNat := by
  show ((List.range count.toNat).map _).length = _
  rw [List.length_map, List.length_range]

/-- C7: for every requested `count ≥ 1` and every outcome of the random
radius jitter (an arbitrary oracle `rand`), `calculateCircularPositions`
returns exactly `count` positions, and after the `resolveCollisions`
separation pass either every pair of distinct positions is at least
`minDistance = 80` apart, or the 10-pass iteration cap was exhausted (the
result is the 10-fold application of the collision pass to the raw circle
positions). -/
theorem calculateCircularPositions_spec (cx cy : ℝ) (count : ℤ)
    (hc : 1 ≤ count) (rand : ℕ → ℝ) :
    ((calculateCircularPositions cx cy count rand).length : ℤ) = count ∧
    (Separated 80 (calculateCircularPositions cx cy count rand) ∨
      calculateCircularPositions cx cy count rand =
        passIter 80 10 (basePositions cx cy count rand)) := by
  constructor
  · have h1 : (calculateCircularPositions cx cy count rand).length = count.toNat := by
      show (resolveLoop 80 10 (basePositions cx cy count rand)).length = _
      rw [resolveLoop_length, basePositions_length]
    rw [h1]
    omega
  · exact resolveLoop_spec 80 10 (basePositions cx cy count rand)

/-- Witness for `calculateCircularPositions_spec`: 3 positions requested
around the origin with the jitter oracle fixed to 0. -/
theorem calculateCircularPositions_spec_witness :
    (1 : ℤ) ≤ 3 ∧
    ((calculateCircularPositions 0 0 3 (fun _ => 0)).length : ℤ) = 3 ∧
    (Separated 80 (calculateCircularPositions 0 0 3 (fun _ => 0)) ∨
      calculateCircularPositions 0 0 3 (fun _ => 0) =
        passIter 80 10 (basePositions 0 0 3 (fun _ => 0))) :=
  ⟨by decide,
    (calculateCircularPositions_spec 0 0 3 (by decide) (fun _ => 0)).1,
    (calculateCircularPositions_spec 0 0 3 (by decide) (fun _ => 0)).2⟩
